import Mathlib

/-!
Shallow embedding of the task-management application's ordering and
validation logic, translated from the TypeScript source:

* `src/lib/patterns/repository/TaskRepository.ts` — `PrismaTaskRepository`
  (in-memory model of the Prisma `tasks` table), the Command classes
  (`CreateTaskCommand`, `UpdateTaskCommand`, `ToggleTaskCommand`,
  `ReorderTasksCommand`) and the Chain-of-Responsibility validation
  handlers (`RequiredHandler`, `TypeHandler`, `MaxLengthHandler`,
  `NumericHandler`).
* `src/lib/patterns/helpers/TaskValidators.ts` — `TaskValidators`.
* `src/app/api/tasks/reorder/route.ts` — the reorder `PUT` handler.
* `src/app/api/tasks/[id]/toggle/route.ts` — the toggle `PATCH` handler
  and the client page's drag handlers (`handleDragOver`, `handleDragEnd`,
  `handleReorder`).

The Prisma store is modelled as a list of rows; `prisma.$transaction`
is modelled as all-or-nothing (an `Option Store` result: `none` means
the transaction threw and was rolled back, leaving the caller's state
untouched).  Machine `number`s that the code uses as integers (ids,
sortOrder) are modelled as `Int`; pointer geometry is modelled over `ℚ`.
Timestamps are abstract integers supplied as a `now` parameter; Prisma's
`@updatedAt` refresh is modelled by writing `now` into `updatedAt` on
every row an update touches.
-/

namespace TaskApp

/-- A row of the `tasks` table (`prisma/schema.prisma`, `src/lib/types.ts`). -/
structure Task where
  id : Int
  title : String
  description : Option String
  isCompleted : Bool
  sortOrder : Int
  createdAt : Int
  updatedAt : Int
deriving DecidableEq, Repr

/-- The persisted store: the rows of the `tasks` table, in insertion order. -/
abbrev Store := List Task

/-- A JSON/JavaScript runtime value, as far as the validators inspect one:
strings, numbers, booleans, `null` and `undefined`. -/
inductive JsVal where
  | vstr (s : String)
  | vnum (n : Int)
  | vbool (b : Bool)
  | vnull
  | vundef
deriving DecidableEq, Repr

/-- JavaScript `typeof`. -/
def jsTypeof : JsVal → String
  | .vstr _ => "string"
  | .vnum _ => "number"
  | .vbool _ => "boolean"
  | .vnull => "object"
  | .vundef => "undefined"

/-- Whitespace as stripped by JavaScript `String.prototype.trim`
(restricted to the ASCII whitespace that can occur in this app's inputs). -/
def isJsSpace (c : Char) : Bool :=
  c = ' ' || c = '\t' || c = '\n' || c = '\r'

/-- JavaScript `s.trim()`: strip leading and trailing whitespace. -/
def jsTrim (s : String) : String :=
  ⟨(((s.data.dropWhile isJsSpace).reverse.dropWhile isJsSpace).reverse)⟩

/-- JavaScript `s.length` (the app's strings are plain text, one code unit
per character). -/
def jsLength (s : String) : Nat :=
  s.data.length

/-- JavaScript `parseInt(s, 10)`: trim, optional sign, then the longest
leading run of decimal digits; `none` models `NaN`. -/
def jsParseInt (s : String) : Option Int :=
  let l := s.data.dropWhile isJsSpace
  let (sign, rest) :=
    match l with
    | '-' :: r => ((-1 : Int), r)
    | '+' :: r => ((1 : Int), r)
    | r => ((1 : Int), r)
  let digits := rest.takeWhile (·.isDigit)
  if digits = [] then none
  else some (sign * (digits.foldl (fun acc c => acc * 10 + (c.toNat - '0'.toNat)) 0 : Nat))

/-- `ValidationResult` (`src/lib/patterns/strategy/ValidationStrategy.ts`). -/
structure ValidationResult where
  isValid : Bool
  error : Option String
deriving DecidableEq, Repr

namespace Validation

/-- `RequiredHandler.validate`: invalid when the value is `null`,
`undefined`, or a string that is empty after trimming. -/
def requiredValidate (fieldName : String) (v : JsVal) : ValidationResult :=
  match v with
  | .vnull => ⟨false, some (fieldName ++ "は必須です")⟩
  | .vundef => ⟨false, some (fieldName ++ "は必須です")⟩
  | .vstr s => if jsTrim s = "" then ⟨false, some (fieldName ++ "は必須です")⟩ else ⟨true, none⟩
  | _ => ⟨true, none⟩

/-- `TypeHandler.validate`: invalid when `typeof value` differs from the
expected type name. -/
def typeValidate (expectedType : String) (fieldName : String) (v : JsVal) : ValidationResult :=
  if jsTypeof v = expectedType then ⟨true, none⟩
  else ⟨false, some (fieldName ++ "は" ++ expectedType ++ "型である必要があります")⟩

/-- `MaxLengthHandler.validate`: invalid when the value is a string whose
(untrimmed) length exceeds `maxLength`. -/
def maxLengthValidate (maxLength : Nat) (fieldName : String) (v : JsVal) : ValidationResult :=
  match v with
  | .vstr s =>
      if jsLength s > maxLength then
        ⟨false, some (fieldName ++ "は" ++ toString maxLength ++ "文字以内で入力してください")⟩
      else ⟨true, none⟩
  | _ => ⟨true, none⟩

/-- `NumericHandler.validate`: coerce strings with `parseInt`, then require
a non-`NaN` number. -/
def numericValidate (fieldName : String) (v : JsVal) : ValidationResult :=
  let num : Option Int :=
    match v with
    | .vstr s => jsParseInt s
    | .vnum n => some n
    | _ => none
  match num with
  | some _ => ⟨true, none⟩
  | none => ⟨false, some (fieldName ++ "は有効な数値である必要があります")⟩

/-- `AbstractValidationHandler.handle` over a built chain: run each
handler in order, stopping at the first invalid result. -/
def chainHandle (handlers : List (JsVal → ValidationResult)) (v : JsVal) : ValidationResult :=
  match handlers with
  | [] => ⟨true, none⟩
  | h :: rest =>
      let r := h v
      if r.isValid then chainHandle rest v else r

end Validation

namespace TaskValidators

open Validation

/-- `TaskValidators.validateTitle`: Required → Type "string" → MaxLength 100. -/
def validateTitle (title : JsVal) : ValidationResult :=
  chainHandle
    [requiredValidate "タイトル", typeValidate "string" "タイトル", maxLengthValidate 100 "タイトル"]
    title

/-- `TaskValidators.validateDescription`: `null`/`undefined`/`""` are valid;
otherwise Type "string" → MaxLength 500. -/
def validateDescription (description : JsVal) : ValidationResult :=
  match description with
  | .vnull => ⟨true, none⟩
  | .vundef => ⟨true, none⟩
  | .vstr "" => ⟨true, none⟩
  | v => chainHandle [typeValidate "string" "説明", maxLengthValidate 500 "説明"] v

/-- `TaskValidators.validateTaskId`: Required → Numeric, then reject
non-positive numbers. -/
def validateTaskId (id : JsVal) : ValidationResult :=
  let result := chainHandle [requiredValidate "タスクID", numericValidate "タスクID"] id
  if ¬result.isValid then result
  else
    let numId : Option Int :=
      match id with
      | .vstr s => jsParseInt s
      | .vnum n => some n
      | _ => none
    match numId with
    | some n =>
        if n ≤ 0 then ⟨false, some "タスクIDは正の数である必要があります"⟩ else ⟨true, none⟩
    | none => ⟨true, none⟩

/-- `TaskValidators.validateTaskInput`: title first, then description. -/
def validateTaskInput (title description : JsVal) : ValidationResult :=
  let titleResult := validateTitle title
  if ¬titleResult.isValid then titleResult
  else
    let descriptionResult := validateDescription description
    if ¬descriptionResult.isValid then descriptionResult
    else ⟨true, none⟩

end TaskValidators

namespace PrismaTaskRepository

/-- `prisma.task.findUnique({ where: { id } })`: the unique row with this
primary key (the store invariant is that ids are distinct). -/
def findById (s : Store) (id : Int) : Option Task :=
  s.find? (fun t => t.id = id)

/-- `PrismaTaskRepository.findAll`: all rows ordered by `sortOrder`
ascending.  (Prisma leaves the relative order of equal keys to the
database; a stable sort is one refinement of that, and every claim
below only uses it on stores with pairwise distinct `sortOrder`s,
where all sorts agree.) -/
def findAll (s : Store) : List Task :=
  List.insertionSort (fun a b => a.sortOrder ≤ b.sortOrder) s

/-- Next `AUTOINCREMENT` primary key: one more than the largest id used. -/
def nextId (s : Store) : Int :=
  (s.map Task.id).foldr max 0 + 1

/-- `TaskCreateData` (`TaskRepository.ts`). -/
structure TaskCreateData where
  title : String
  description : Option String
  sortOrder : Int
deriving DecidableEq, Repr

/-- `prisma.task.create({ data })`: insert a fresh row; the store assigns
the id and both timestamps. -/
def create (s : Store) (now : Int) (data : TaskCreateData) : Store × Task :=
  let t : Task :=
    { id := nextId s
      title := data.title
      description := data.description
      isCompleted := false
      sortOrder := data.sortOrder
      createdAt := now
      updatedAt := now }
  (s ++ [t], t)

/-- One `prisma.task.update({ where: { id }, data })` call: apply `f` to
the row with this id and refresh its `updatedAt`; `none` models the
`RecordNotFound` throw when no row matches. -/
def updateRow (s : Store) (id : Int) (now : Int) (f : Task → Task) : Option Store :=
  if (s.find? (fun t => t.id = id)).isSome then
    some (s.map (fun t => if t.id = id then { f t with updatedAt := now } else t))
  else none

/-- `PrismaTaskRepository.update`: set `title` and `description` of one row. -/
def update (s : Store) (id : Int) (now : Int) (title : String) (description : Option String) :
    Option Store :=
  updateRow s id now (fun t => { t with title := title, description := description })

/-- `PrismaTaskRepository.updateSortOrders`: a `prisma.$transaction` of one
`update` per entry, setting that row's `sortOrder`.  The transaction is
all-or-nothing: if any entry's id matches no row, the whole result is
`none` and the caller's state is unchanged (rollback). -/
def updateSortOrders (s : Store) (now : Int) (updates : List (Int × Int)) : Option Store :=
  updates.foldlM
    (fun st u => updateRow st u.1 now (fun t => { t with sortOrder := u.2 }))
    s

/-- `PrismaTaskRepository.incrementAllSortOrders`:
`prisma.task.updateMany({ data: { sortOrder: { increment: 1 } } })`,
a single atomic statement touching every row. -/
def incrementAllSortOrders (s : Store) (now : Int) : Store :=
  s.map (fun t => { t with sortOrder := t.sortOrder + 1, updatedAt := now })

/-- `PrismaTaskRepository.toggleComplete`: `findById`, throw
`"Task not found"` when absent, else flip `isCompleted`. -/
def toggleComplete (s : Store) (id : Int) (now : Int) : Except String (Store × Task) :=
  match findById s id with
  | none => .error "Task not found"
  | some task =>
      match updateRow s id now (fun t => { t with isCompleted := !task.isCompleted }) with
      | some s' =>
          match findById s' id with
          | some t' => .ok (s', t')
          | none => .error "Task not found"
      | none => .error "Task not found"

end PrismaTaskRepository

/-- `CommandResult` (`TaskCommands.ts`): `{ success, data?, error? }`. -/
inductive CommandResult (α : Type) where
  | success (data : α)
  | error (msg : String)
deriving DecidableEq, Repr

/-- `TaskValidators.validateReorderData`: each entry must be an object
(enforced here by the pair type) whose `id` passes `validateTaskId` and
whose `sortOrder` is a number `≥ 0`; stop at the first failure. -/
def TaskValidators.validateReorderData (data : List (JsVal × JsVal)) : ValidationResult :=
  match data with
  | [] => ⟨true, none⟩
  | item :: rest =>
      let idResult := TaskValidators.validateTaskId item.1
      if ¬idResult.isValid then idResult
      else
        match item.2 with
        | .vnum n =>
            if n < 0 then ⟨false, some "sortOrderは0以上の数値である必要があります"⟩
            else TaskValidators.validateReorderData rest
        | _ => ⟨false, some "sortOrderは0以上の数値である必要があります"⟩

/-- `this.title.trim()` inside the create/update commands.  The commands
only reach this after `validateTaskInput`, which guarantees the title is
a string. -/
def titleTrim (title : JsVal) : String :=
  match title with
  | .vstr s => jsTrim s
  | _ => ""

/-- `this.description?.trim() || null`: `null`/`undefined` stay `null`,
and a string that trims to `""` is also collapsed to `null`. -/
def descNormalize (description : JsVal) : Option String :=
  match description with
  | .vstr s => let t := jsTrim s; if t = "" then none else some t
  | _ => none

namespace CreateTaskCommand

/-- `CreateTaskCommand.execute` with the route's validator
(`validateTaskInput`) installed.  The two repository calls are separate
awaited statements with no surrounding transaction, so a throw is
modelled per call: `incrementFails` aborts before the (atomic) shift
commits; `createFails` aborts after the shift has committed but before
the insert, and the `catch` block returns an error result without
rolling the shift back. -/
def execute (incrementFails createFails : Bool) (s : Store) (now : Int)
    (title description : JsVal) : Store × CommandResult Task :=
  let validationResult := TaskValidators.validateTaskInput title description
  if ¬validationResult.isValid then
    (s, .error (validationResult.error.getD "バリデーションエラー"))
  else if incrementFails then
    (s, .error "タスクの作成に失敗しました")
  else
    let s1 := PrismaTaskRepository.incrementAllSortOrders s now
    if createFails then
      (s1, .error "タスクの作成に失敗しました")
    else
      let created := PrismaTaskRepository.create s1 now
        { title := titleTrim title, description := descNormalize description, sortOrder := 0 }
      (created.1, .success created.2)

end CreateTaskCommand

namespace UpdateTaskCommand

/-- `UpdateTaskCommand.execute` with the route's validator installed:
existence check, validation, then a single-row `update` of title and
description. -/
def execute (s : Store) (now : Int) (taskId : Int)
    (title description : JsVal) : Store × CommandResult Task :=
  match PrismaTaskRepository.findById s taskId with
  | none => (s, .error "タスクが見つかりません")
  | some _ =>
      let validationResult := TaskValidators.validateTaskInput title description
      if ¬validationResult.isValid then
        (s, .error (validationResult.error.getD "バリデーションエラー"))
      else
        match PrismaTaskRepository.update s taskId now (titleTrim title)
            (descNormalize description) with
        | some s' =>
            match PrismaTaskRepository.findById s' taskId with
            | some t => (s', .success t)
            | none => (s', .error "タスクの更新に失敗しました")
        | none => (s, .error "タスクの更新に失敗しました")

end UpdateTaskCommand

namespace ToggleTaskCommand

/-- `ToggleTaskCommand.execute`: call `toggleComplete` and catch any
throw, replacing its message with the command's generic one. -/
def execute (s : Store) (now : Int) (taskId : Int) : Store × CommandResult Task :=
  match PrismaTaskRepository.toggleComplete s taskId now with
  | .ok st => (st.1, .success st.2)
  | .error _ => (s, .error "タスクの状態更新に失敗しました")

end ToggleTaskCommand

namespace ReorderTasksCommand

/-- `ReorderTasksCommand.execute`: hand the updates to
`updateSortOrders`.  An entry whose runtime id is not a number makes the
Prisma `where` clause throw inside the transaction, which is the same
caught-and-rolled-back outcome as an unknown id. -/
def execute (s : Store) (now : Int) (updates : List (JsVal × Int)) :
    Store × CommandResult String :=
  let intUpdates : Option (List (Int × Int)) :=
    updates.mapM (fun u => match u.1 with | .vnum i => some (i, u.2) | _ => none)
  match intUpdates with
  | none => (s, .error "並び順の更新に失敗しました")
  | some ups =>
      match PrismaTaskRepository.updateSortOrders s now ups with
      | none => (s, .error "並び順の更新に失敗しました")
      | some s' => (s', .success "並び順を更新しました")

end ReorderTasksCommand

/-- The outcome of a route handler, as produced by `ResponseFactory`:
`ok` is HTTP 200, `badRequest` 400, `notFound` 404, `error` 500. -/
inductive ApiResponse (α : Type) where
  | ok (data : α)
  | badRequest (msg : String)
  | notFound (msg : String)
  | error (msg : String)
deriving DecidableEq, Repr

namespace Routes

/-- `PUT /api/tasks/reorder` (`reorder/route.ts`): turn `taskIds` into
`{ id, sortOrder := index }` updates, validate them, then run
`ReorderTasksCommand`.  The result pairs the HTTP response with the
store as left by the handler. -/
def reorderPUT (s : Store) (now : Int) (taskIds : List JsVal) :
    ApiResponse Unit × Store :=
  let updates : List (JsVal × Int) :=
    taskIds.enum.map (fun p => (p.2, (p.1 : Int)))
  let validationResult :=
    TaskValidators.validateReorderData (updates.map (fun u => (u.1, JsVal.vnum u.2)))
  if ¬validationResult.isValid then
    (.badRequest (validationResult.error.getD "バリデーションエラー"), s)
  else
    match ReorderTasksCommand.execute s now updates with
    | (s', .success _) => (.ok (), s')
    | (s', .error e) => (.error e, s')

/-- `PATCH /api/tasks/[id]/toggle` (`toggle/route.ts`): validate the
parsed id, run `ToggleTaskCommand`, and map a literal `"Task not found"`
error message to a 404 — any other error message becomes a 500. -/
def togglePATCH (s : Store) (now : Int) (taskId : Int) :
    ApiResponse Task × Store :=
  let validationResult := TaskValidators.validateTaskId (.vnum taskId)
  if ¬validationResult.isValid then
    (.badRequest (validationResult.error.getD "無効なタスクIDです"), s)
  else
    match ToggleTaskCommand.execute s now taskId with
    | (s', .success t) => (.ok t, s')
    | (s', .error e) =>
        if e = "Task not found" then (.notFound "タスクが見つかりません", s')
        else (.error e, s')

/-- `PUT /api/tasks/[id]`: validate id and body, then run
`UpdateTaskCommand`, mapping its not-found message to a 404. -/
def updatePUT (s : Store) (now : Int) (taskId : Int) (title description : JsVal) :
    ApiResponse Task × Store :=
  let idValidationResult := TaskValidators.validateTaskId (.vnum taskId)
  if ¬idValidationResult.isValid then
    (.badRequest (idValidationResult.error.getD "無効なタスクIDです"), s)
  else
    let validationResult := TaskValidators.validateTaskInput title description
    if ¬validationResult.isValid then
      (.badRequest (validationResult.error.getD "バリデーションエラー"), s)
    else
      match UpdateTaskCommand.execute s now taskId title description with
      | (s', .success t) => (.ok t, s')
      | (s', .error e) =>
          if e = "タスクが見つかりません" then (.notFound e, s')
          else (.error e, s')

end Routes

namespace DragResolver

/-- The `newDropTarget` computed by `handleDragOver` before the own-slot
suppression: with `threshold = height * 0.45`, a pointer above it
targets `index`, one below `height - threshold` targets `index + 1`, and
the middle band is the early `return` (`none` here means "no candidate:
keep the previous target"). -/
def dragOverCandidate (index : ℕ) (offsetY height : ℚ) : Option ℕ :=
  let threshold := height * (45 / 100)
  if offsetY < threshold then some index
  else if height - threshold < offsetY then some (index + 1)
  else none

/-- `handleDragOver`: no-op unless dragging; in the deadband the previous
`dropTargetIndex` is retained; a candidate equal to `draggedIndex` or
`draggedIndex + 1` clears the target to `none` (own-slot suppression);
otherwise the candidate becomes the new target. -/
def handleDragOver (draggedIndex : Option ℕ) (index : ℕ) (offsetY height : ℚ)
    (dropTargetIndex : Option ℕ) : Option ℕ :=
  match draggedIndex with
  | none => dropTargetIndex
  | some d =>
      match dragOverCandidate index offsetY height with
      | none => dropTargetIndex
      | some c => if c = d ∨ c = d + 1 then none else some c

/-- `handleDragEnd`: when both a dragged index and a drop target are set,
splice the dragged task out, decrement the target by one when the
removal shifted it, splice the task back in, and call the reorder API
with the new list (the `Bool` records that the call was made);
otherwise the list is left as it was and no reorder happens. -/
def handleDragEnd (tasks : List Task) (draggedIndex dropTargetIndex : Option ℕ)
    : List Task × Bool :=
  match draggedIndex, dropTargetIndex with
  | some d, some t =>
      match tasks[d]? with
      | some draggedTask =>
          let newTasks := tasks.eraseIdx d
          let insertIndex := if d < t then t - 1 else t
          (newTasks.insertIdx insertIndex draggedTask, true)
      | none => (tasks, false)
  | _, _ => (tasks, false)

/-- `handleReorder`: the id sequence the client sends to
`PUT /api/tasks/reorder` for a reordered list. -/
def handleReorder (newTasks : List Task) : List Int :=
  newTasks.map Task.id

end DragResolver

/-- First `sortOrder` bound to an id in an update list (the same
first-match rule as the sequential transaction). -/
def lookupOrd (a : Int) : List (Int × Int) → Option Int
  | [] => none
  | (k, v) :: rest => if k = a then some v else lookupOrd a rest

/-- The comparator `findAll` sorts by. -/
instance : IsTotal Task (fun a b => a.sortOrder ≤ b.sortOrder) :=
  ⟨fun a b => le_total a.sortOrder b.sortOrder⟩

instance : IsTrans Task (fun a b => a.sortOrder ≤ b.sortOrder) :=
  ⟨fun _ _ _ h h' => le_trans h h'⟩

/-- Sample rows used to instantiate the theorems below:
the §8 scenario's tasks A, B, C at sortOrder 0, 1, 2. -/
def sampleA : Task := ⟨1, "A", none, false, 0, 0, 0⟩

def sampleB : Task := ⟨2, "B", none, false, 1, 0, 0⟩

def sampleC : Task := ⟨3, "C", none, false, 2, 0, 0⟩

/-- A store row carrying `sortOrder = -1`. -/
def negTask : Task := ⟨1, "t", none, false, -1, 0, 0⟩

/-- A title of 100 letters followed by one space: raw length 101,
trimmed length 100. -/
def longPaddedTitle : String := ⟨List.replicate 100 'a' ++ [' ']⟩

/-! ## Theorems -/

/-- C6: while dragging over an item, a pointer with vertical offset ratio
`r = offsetY / height` strictly below 0.45 makes the candidate target
`hoverIndex`, one strictly above 0.55 makes it `hoverIndex + 1`, and in
the deadband `0.45 ≤ r ≤ 0.55` the handler leaves the previously
computed drop target unchanged. -/
theorem dragOver_hysteresis (draggedIndex : Option ℕ) (index : ℕ)
    (offsetY height : ℚ) (cur : Option ℕ) (hh : 0 < height) :
    (offsetY / height < 45 / 100 →
      DragResolver.dragOverCandidate index offsetY height = some index) ∧
    (55 / 100 < offsetY / height →
      DragResolver.dragOverCandidate index offsetY height = some (index + 1)) ∧
    (45 / 100 ≤ offsetY / height → offsetY / height ≤ 55 / 100 →
      DragResolver.handleDragOver draggedIndex index offsetY height cur = cur) := by
  have h1 : offsetY / height < 45 / 100 ↔ offsetY < height * (45 / 100) := by
    rw [div_lt_iff₀ hh]; constructor <;> intro h <;> linarith
  have h2 : 55 / 100 < offsetY / height ↔ height - height * (45 / 100) < offsetY := by
    rw [lt_div_iff₀ hh]; constructor <;> intro h <;> linarith
  refine ⟨?_, ?_, ?_⟩
  · intro h
    simp only [DragResolver.dragOverCandidate]
    rw [if_pos (h1.mp h)]
  · intro h
    have hgt := h2.mp h
    have hnot : ¬ offsetY < height * (45 / 100) := by nlinarith
    simp only [DragResolver.dragOverCandidate]
    rw [if_neg hnot, if_pos hgt]
  · intro hlo hhi
    have hcand : DragResolver.dragOverCandidate index offsetY height = none := by
      have hn1 : ¬ offsetY < height * (45 / 100) := by
        rw [← h1]; exact not_lt.mpr hlo
      have hn2 : ¬ height - height * (45 / 100) < offsetY := by
        rw [← h2]; exact not_lt.mpr hhi
      simp only [DragResolver.dragOverCandidate]
      rw [if_neg hn1, if_neg hn2]
    cases draggedIndex <;> simp [DragResolver.handleDragOver, hcand]

/-- C6 witness: the pointer at the exact middle of an item (r = 0.5)
retains the previously computed target. -/
theorem dragOver_hysteresis_witness :
    DragResolver.handleDragOver (some 1) 2 50 100 (some 7) = some 7 :=
  (dragOver_hysteresis (some 1) 2 50 100 (some 7) (by norm_num)).2.2
    (by norm_num) (by norm_num)

/-- C7: when the candidate target computed from the pointer equals
`draggedIndex` or `draggedIndex + 1`, `handleDragOver` sets the drop
target to `none` (suppression rather than keeping a stale value), and a
release in that state performs no reorder: the task list is returned
unchanged and no reorder call is made. -/
theorem dragOver_own_slot_noop (d index : ℕ) (offsetY height : ℚ)
    (cur : Option ℕ) (tasks : List Task) (c : ℕ)
    (hc : DragResolver.dragOverCandidate index offsetY height = some c)
    (hslot : c = d ∨ c = d + 1) :
    DragResolver.handleDragOver (some d) index offsetY height cur = none ∧
    DragResolver.handleDragEnd tasks (some d)
      (DragResolver.handleDragOver (some d) index offsetY height cur) =
      (tasks, false) := by
  have h1 : DragResolver.handleDragOver (some d) index offsetY height cur = none := by
    simp only [DragResolver.handleDragOver, hc]
    rw [if_pos hslot]
  refine ⟨h1, ?_⟩
  rw [h1]
  rfl

/-- C7 witness: dragging item 0 and pointing at the top zone of item 0
(candidate 0 = draggedIndex) suppresses the target, and releasing leaves
the single-task list untouched. -/
theorem dragOver_own_slot_noop_witness :
    DragResolver.handleDragOver (some 0) 0 10 100 (some 5) = none ∧
    DragResolver.handleDragEnd [sampleA] (some 0)
      (DragResolver.handleDragOver (some 0) 0 10 100 (some 5)) =
      ([sampleA], false) :=
  dragOver_own_slot_noop 0 0 10 100 (some 5) [sampleA] 0
    (by norm_num [DragResolver.dragOverCandidate]) (Or.inl rfl)

/-- C5: a release while dragging the item at `d` with valid target `t`
(`t ≠ d`, `t ≠ d + 1` being implied by `t < d ∨ d < t` for the moved
cases the claim covers) produces exactly the list obtained by removing
the item at `d` and inserting it at `t` when `t < d`, or at `t - 1`
when `t > d`, and triggers the reorder call. -/
theorem dragEnd_moves (tasks : List Task) (d t : ℕ) (hd : d < tasks.length)
    (ht : t < d ∨ d < t) :
    DragResolver.handleDragEnd tasks (some d) (some t) =
      ((tasks.eraseIdx d).insertIdx (if t < d then t else t - 1)
        (tasks.get ⟨d, hd⟩), true) := by
  have hget : tasks[d]? = some (tasks.get ⟨d, hd⟩) := by
    rw [List.getElem?_eq_getElem hd]; rfl
  simp only [DragResolver.handleDragEnd, hget]
  rcases ht with h | h
  · rw [if_neg (by omega), if_pos h]
  · rw [if_pos h, if_neg (by omega)]

/-- C5 witness: the §8 scenario — tasks [A, B, C], C (index 2) dragged to
target 0; the release hands reorder the sequence [C, A, B]. -/
theorem dragEnd_moves_witness :
    DragResolver.handleDragEnd [sampleA, sampleB, sampleC] (some 2) (some 0) =
      ([sampleC, sampleA, sampleB], true) ∧
    DragResolver.handleReorder [sampleC, sampleA, sampleB] = [3, 1, 2] := by
  have h := dragEnd_moves [sampleA, sampleB, sampleC] 2 0 (by decide)
    (Or.inl (by decide))
  rw [h]
  exact ⟨by decide, by decide⟩

/-- C9 counterexample: a title of raw length 101 whose trimmed length is
100 is rejected by `validateTitle`, although the claim says a title
whose trimmed length is ≤ 100 is accepted even when surrounding
whitespace pushes the raw length over 100 (`MaxLengthHandler` checks
`value.length` before trimming). -/
theorem validateTitle_trim_claim_refuted :
    jsTrim longPaddedTitle ≠ "" ∧
    jsLength (jsTrim longPaddedTitle) = 100 ∧
    (TaskValidators.validateTitle (.vstr longPaddedTitle)).isValid = false := by
  decide

/-- C9 (amended): `validateTitle` accepts exactly the strings that are
non-empty after trimming and of raw (untrimmed) length at most 100, and
a title failing validation makes the create command return before any
write: the store is unchanged. -/
theorem validateTitle_accepts_iff (v : JsVal) (s : Store) (now : Int)
    (incrementFails createFails : Bool) (description : JsVal) :
    ((TaskValidators.validateTitle v).isValid = true ↔
      ∃ str, v = JsVal.vstr str ∧ jsTrim str ≠ "" ∧ jsLength str ≤ 100) ∧
    ((TaskValidators.validateTitle v).isValid = false →
      (CreateTaskCommand.execute incrementFails createFails s now v description).1 = s) := by
  constructor
  · cases v with
    | vstr str =>
        by_cases h1 : jsTrim str = "" <;> by_cases h2 : 100 < jsLength str
        all_goals
          simp [TaskValidators.validateTitle, Validation.chainHandle,
            Validation.requiredValidate, Validation.typeValidate,
            Validation.maxLengthValidate, jsTypeof, h1, h2]
        all_goals omega
    | vnum n =>
        simp [TaskValidators.validateTitle, Validation.chainHandle,
          Validation.requiredValidate, Validation.typeValidate, jsTypeof]
    | vbool b =>
        simp [TaskValidators.validateTitle, Validation.chainHandle,
          Validation.requiredValidate, Validation.typeValidate, jsTypeof]
    | vnull =>
        simp [TaskValidators.validateTitle, Validation.chainHandle,
          Validation.requiredValidate]
    | vundef =>
        simp [TaskValidators.validateTitle, Validation.chainHandle,
          Validation.requiredValidate]
  · intro hinv
    have hti : (TaskValidators.validateTaskInput v description).isValid = false := by
      simp only [TaskValidators.validateTaskInput]
      rw [if_pos (by simp [hinv])]
      exact hinv
    simp only [CreateTaskCommand.execute]
    rw [if_pos (by simp [hti])]

/-- C9 witness: a `null` title fails validation and the create command
leaves an empty store empty. -/
theorem validateTitle_accepts_iff_witness :
    (CreateTaskCommand.execute false false [] 0 JsVal.vnull JsVal.vnull).1 = [] :=
  (validateTitle_accepts_iff JsVal.vnull [] 0 false false JsVal.vnull).2 (by decide)

/-- C8: toggling id 9999 against a store that only holds task 1 modifies
no row, but produces the generic 500 error response, not a not-found
outcome: `ToggleTaskCommand`'s catch block replaces the repository's
thrown `"Task not found"` message with its own generic message, so the
route's `result.error === "Task not found"` branch can never fire. -/
theorem toggle_missing_id_not_notFound :
    Routes.togglePATCH [sampleA] 5 9999 =
      (.error "タスクの状態更新に失敗しました", [sampleA]) ∧
    (ApiResponse.error "タスクの状態更新に失敗しました" : ApiResponse Task) ≠
      .notFound "タスクが見つかりません" := by
  decide

/-- C3: the prepend-create's two repository calls are not wrapped in one
transaction: in an execution where the all-rows shift commits and the
insert then fails, the command reports failure but the store keeps the
shifted `sortOrder`s — it is not left as it was before the operation. -/
theorem create_insert_failure_leaves_shift :
    CreateTaskCommand.execute false true [sampleA] 5 (.vstr "Buy milk") .vnull =
      ([{ sampleA with sortOrder := 1, updatedAt := 5 }],
        .error "タスクの作成に失敗しました") ∧
    ([{ sampleA with sortOrder := 1, updatedAt := 5 }] : Store) ≠ [sampleA] := by
  decide

/-- C2 counterexample: on a store whose single task carries
`sortOrder = -1`, a validated create yields two tasks both at
`sortOrder = 0`, although no two tasks shared a `sortOrder` before. -/
theorem create_prepend_nodup_refuted :
    (([negTask] : Store).map Task.sortOrder).Nodup ∧
    (TaskValidators.validateTaskInput (.vstr "x") .vnull).isValid = true ∧
    ¬ (((CreateTaskCommand.execute false false [negTask] 5 (.vstr "x") .vnull).1.map
        Task.sortOrder).Nodup) := by
  decide

/-- C2 (amended): for every store in which no existing task has
`sortOrder = -1` (true of every state the app can produce, where
`sortOrder`s are never negative), a create that passes validation
increments every previously existing task's `sortOrder` by exactly 1,
inserts the new task with `sortOrder = 0`, and preserves
pairwise-distinct `sortOrder`s. -/
theorem create_prepend_spec (s : Store) (now : Int) (title description : JsVal)
    (hv : (TaskValidators.validateTaskInput title description).isValid = true)
    (hneg : ∀ t ∈ s, t.sortOrder ≠ -1) :
    (CreateTaskCommand.execute false false s now title description).1 =
      s.map (fun t => { t with sortOrder := t.sortOrder + 1, updatedAt := now }) ++
        [{ id := PrismaTaskRepository.nextId s, title := titleTrim title,
           description := descNormalize description, isCompleted := false,
           sortOrder := 0, createdAt := now, updatedAt := now }] ∧
    ((s.map Task.sortOrder).Nodup →
      ((CreateTaskCommand.execute false false s now title description).1.map
        Task.sortOrder).Nodup) := by
  have hids : (PrismaTaskRepository.incrementAllSortOrders s now).map Task.id =
      s.map Task.id := by
    simp only [PrismaTaskRepository.incrementAllSortOrders, List.map_map]
    rfl
  have hnext : PrismaTaskRepository.nextId
      (PrismaTaskRepository.incrementAllSortOrders s now) =
      PrismaTaskRepository.nextId s := by
    simp only [PrismaTaskRepository.nextId, hids]
  have hstore : (CreateTaskCommand.execute false false s now title description).1 =
      s.map (fun t => { t with sortOrder := t.sortOrder + 1, updatedAt := now }) ++
        [{ id := PrismaTaskRepository.nextId s, title := titleTrim title,
           description := descNormalize description, isCompleted := false,
           sortOrder := 0, createdAt := now, updatedAt := now }] := by
    simp only [CreateTaskCommand.execute]
    rw [if_neg (by simp [hv]), if_neg (by simp)]
    simp only [PrismaTaskRepository.create, hnext]
    rfl
  refine ⟨hstore, fun hnd => ?_⟩
  rw [hstore]
  have hmap :
      ((s.map (fun t => ({ t with sortOrder := t.sortOrder + 1, updatedAt := now } : Task)) ++
        [({ id := PrismaTaskRepository.nextId s, title := titleTrim title,
            description := descNormalize description, isCompleted := false,
            sortOrder := 0, createdAt := now, updatedAt := now } : Task)]).map Task.sortOrder) =
      (s.map Task.sortOrder).map (fun x => x + 1) ++ [0] := by
    simp only [List.map_append, List.map_map]
    rfl
  rw [hmap, List.nodup_append]
  refine ⟨hnd.map (fun a b h => by omega), by simp, ?_⟩
  intro a ha hb
  simp only [List.mem_singleton] at hb
  subst hb
  obtain ⟨x, hx, hx0⟩ := List.mem_map.mp ha
  obtain ⟨t, ht, rfl⟩ := List.mem_map.mp hx
  exact hneg t ht (by omega)

/-- C2 witness: creating "x" while task A (sortOrder 0) exists yields A at
sortOrder 1 and the new task at sortOrder 0, all sortOrders distinct. -/
theorem create_prepend_spec_witness :
    (CreateTaskCommand.execute false false [sampleA] 5 (.vstr "x") .vnull).1 =
      [{ sampleA with sortOrder := 1, updatedAt := 5 },
       { id := 2, title := "x", description := none, isCompleted := false,
         sortOrder := 0, createdAt := 5, updatedAt := 5 }] ∧
    ((CreateTaskCommand.execute false false [sampleA] 5 (.vstr "x") .vnull).1.map
      Task.sortOrder).Nodup := by
  have h := create_prepend_spec [sampleA] 5 (.vstr "x") .vnull (by decide) (by decide)
  exact ⟨h.1.trans (by decide), h.2 (by decide)⟩

/-- C10: a successful update rewrites exactly the addressed task's title,
description and `updatedAt`; its id, completion flag, sort order and
creation time are unchanged, and every other task is untouched. -/
theorem update_frame (s : Store) (now taskId : Int) (title description : JsVal)
    (s' : Store) (t' : Task)
    (h : UpdateTaskCommand.execute s now taskId title description =
      (s', CommandResult.success t')) :
    s' = s.map (fun t => if t.id = taskId then
        ({ t with title := titleTrim title, description := descNormalize description, updatedAt := now } : Task) else t) ∧
    s'.length = s.length ∧
    ∀ (j : ℕ) (old : Task), s[j]? = some old →
      ∃ (new : Task), s'[j]? = some new ∧ new.id = old.id ∧
        new.isCompleted = old.isCompleted ∧ new.sortOrder = old.sortOrder ∧
        new.createdAt = old.createdAt ∧ (old.id ≠ taskId → new = old) := by
  have hmain : s' = s.map (fun t => if t.id = taskId then
      ({ t with title := titleTrim title, description := descNormalize description, updatedAt := now } : Task) else t) := by
    unfold UpdateTaskCommand.execute at h
    cases hfind : PrismaTaskRepository.findById s taskId with
    | none => rw [hfind] at h; exact absurd h (by simp)
    | some t0 =>
        rw [hfind] at h
        by_cases hval : (TaskValidators.validateTaskInput title description).isValid
        · rw [if_neg (by simp [hval])] at h
          have hupd : PrismaTaskRepository.update s taskId now (titleTrim title)
              (descNormalize description) =
              some (s.map (fun t => if t.id = taskId then
                ({ t with title := titleTrim title, description := descNormalize description, updatedAt := now } : Task)
                else t)) := by
            simp only [PrismaTaskRepository.update, PrismaTaskRepository.updateRow]
            rw [if_pos (by rw [PrismaTaskRepository.findById] at hfind; simp [hfind])]
          rw [hupd] at h
          dsimp only at h
          cases hfind2 : PrismaTaskRepository.findById
              (s.map (fun t => if t.id = taskId then
                ({ t with title := titleTrim title, description := descNormalize description, updatedAt := now } : Task)
                else t)) taskId with
          | some t2 =>
              rw [hfind2] at h
              simp only [Prod.mk.injEq] at h
              exact h.1.symm
          | none => rw [hfind2] at h; exact absurd h (by simp)
        · rw [if_pos (by simp [hval])] at h; exact absurd h (by simp)
  refine ⟨hmain, ?_, ?_⟩
  · rw [hmain, List.length_map]
  · intro j old hold
    refine ⟨if old.id = taskId then
        ({ old with title := titleTrim title, description := descNormalize description, updatedAt := now } : Task) else old,
      ?_, ?_, ?_, ?_, ?_, ?_⟩
    · rw [hmain, List.getElem?_map, hold]; rfl
    all_goals by_cases hid : old.id = taskId <;> simp [hid]

/-- C10 witness: updating task 1's title to "New" succeeds and preserves
the store's length (the theorem applied at a one-task store). -/
theorem update_frame_witness :
    ([({ sampleA with title := "New", updatedAt := 5 } : Task)] : Store).length =
      ([sampleA] : Store).length :=
  (update_frame [sampleA] 5 1 (.vstr "New") .vnull
    [({ sampleA with title := "New", updatedAt := 5 } : Task)]
    ({ sampleA with title := "New", updatedAt := 5 } : Task) (by decide)).2.1

/-- An id bound nowhere in an update list looks up to `none`. -/
theorem lookupOrd_eq_none {a : Int} : ∀ {l : List (Int × Int)},
    a ∉ l.map Prod.fst → lookupOrd a l = none
  | [], _ => rfl
  | (k, v) :: rest, h => by
      simp only [List.map_cons, List.mem_cons] at h
      push_neg at h
      simp only [lookupOrd]
      rw [if_neg (fun hk => h.1 hk.symm)]
      exact lookupOrd_eq_none h.2

/-- `updateRow` succeeds exactly on present ids, and then maps the store. -/
theorem updateRow_found (st : Store) (i now : Int) (f : Task → Task)
    (hex : ∃ t ∈ st, t.id = i) :
    PrismaTaskRepository.updateRow st i now f =
      some (st.map (fun t => if t.id = i then { f t with updatedAt := now } else t)) := by
  simp only [PrismaTaskRepository.updateRow]
  rw [if_pos]
  rw [List.find?_isSome]
  obtain ⟨t, ht, hid⟩ := hex
  exact ⟨t, ht, by simp [hid]⟩

/-- `updateRow` with an absent id fails. -/
theorem updateRow_absent (st : Store) (i now : Int) (f : Task → Task)
    (hab : i ∉ st.map Task.id) :
    PrismaTaskRepository.updateRow st i now f = none := by
  simp only [PrismaTaskRepository.updateRow]
  rw [if_neg]
  rw [List.find?_isSome]
  rintro ⟨t, ht, hid⟩
  simp only [decide_eq_true_eq] at hid
  exact hab (List.mem_map.mpr ⟨t, ht, hid⟩)

/-- `updateRow` specialised to a sort-order write, in normal form. -/
theorem updateRow_sort (st : Store) (i o now : Int) (hex : ∃ t ∈ st, t.id = i) :
    PrismaTaskRepository.updateRow st i now (fun t => { t with sortOrder := o }) =
      some (st.map (fun t => if t.id = i then
        ({ t with sortOrder := o, updatedAt := now } : Task) else t)) := by
  rw [updateRow_found st i now _ hex]

/-- A sort-order write keeps every row's id. -/
theorem sortWrite_map_id (st : Store) (i o now : Int) :
    (st.map (fun t => if t.id = i then
      ({ t with sortOrder := o, updatedAt := now } : Task) else t)).map Task.id =
      st.map Task.id := by
  rw [List.map_map]
  refine List.map_congr_left (fun t _ => ?_)
  by_cases ht : t.id = i <;> simp [ht]

/-- The sequential transaction of sort-order updates: when the update ids
are distinct and all present, it succeeds and each touched row gets the
`sortOrder` its id is bound to (rows with unlisted ids are unchanged). -/
theorem updateSortOrders_eq (now : Int) : ∀ (ups : List (Int × Int)) (st : Store),
    (ups.map Prod.fst).Nodup →
    (∀ p ∈ ups, p.1 ∈ st.map Task.id) →
    PrismaTaskRepository.updateSortOrders st now ups =
      some (st.map (fun t =>
        match lookupOrd t.id ups with
        | some o => { t with sortOrder := o, updatedAt := now }
        | none => t))
  | [], st, _, _ => by
      simp only [PrismaTaskRepository.updateSortOrders, List.foldlM_nil, lookupOrd]
      rw [show (st.map fun t => t) = st from List.map_id st]
      rfl
  | (i, o) :: rest, st, hnd, hmem => by
      have hex : ∃ t ∈ st, t.id = i := by
        have := hmem (i, o) (List.mem_cons_self _ _)
        obtain ⟨t, ht, hid⟩ := List.mem_map.mp this
        exact ⟨t, ht, hid⟩
      have hndr : (rest.map Prod.fst).Nodup := by
        simpa using hnd.of_cons
      have hhd : i ∉ rest.map Prod.fst := by
        have h' := hnd
        simp only [List.map_cons, List.nodup_cons] at h'
        exact h'.1
      have hmemr : ∀ p ∈ rest, p.1 ∈
          (st.map (fun t => if t.id = i then
            ({ t with sortOrder := o, updatedAt := now } : Task) else t)).map Task.id := by
        intro p hp
        rw [sortWrite_map_id]
        exact hmem p (List.mem_cons_of_mem _ hp)
      have hrec := updateSortOrders_eq now rest
        (st.map (fun t => if t.id = i then
          ({ t with sortOrder := o, updatedAt := now } : Task) else t)) hndr hmemr
      simp only [PrismaTaskRepository.updateSortOrders] at hrec ⊢
      rw [List.foldlM_cons, updateRow_sort st i o now hex]
      simp only [Option.bind_eq_bind, Option.some_bind]
      rw [hrec]
      congr 1
      rw [List.map_map]
      refine List.map_congr_left (fun t _ => ?_)
      by_cases ht : t.id = i
      · simp only [Function.comp, if_pos ht, lookupOrd]
        rw [if_pos ht.symm, lookupOrd_eq_none (ht ▸ hhd)]
      · simp only [Function.comp, if_neg ht, lookupOrd]
        rw [if_neg (fun hi => ht hi.symm)]

/-- The transaction fails (and rolls back) when any update names an id
absent from the store. -/
theorem updateSortOrders_none (now : Int) : ∀ (ups : List (Int × Int)) (st : Store),
    (∃ p ∈ ups, p.1 ∉ st.map Task.id) →
    PrismaTaskRepository.updateSortOrders st now ups = none
  | [], _, h => by simp at h
  | (i, o) :: rest, st, h => by
      simp only [PrismaTaskRepository.updateSortOrders] at h ⊢
      rw [List.foldlM_cons]
      by_cases hi : i ∈ st.map Task.id
      · have hex : ∃ t ∈ st, t.id = i := by
          obtain ⟨t, ht, hid⟩ := List.mem_map.mp hi
          exact ⟨t, ht, hid⟩
        rw [updateRow_sort st i o now hex]
        simp only [Option.bind_eq_bind, Option.some_bind]
        obtain ⟨p, hp, hpab⟩ := h
        rcases List.mem_cons.mp hp with heqp | hpr
        · rw [heqp] at hpab
          exact absurd hi hpab
        · have hnone := updateSortOrders_none now rest
            (st.map (fun t => if t.id = i then
              ({ t with sortOrder := o, updatedAt := now } : Task) else t))
            ⟨p, hpr, by rw [sortWrite_map_id]; exact hpab⟩
          simpa [PrismaTaskRepository.updateSortOrders] using hnone
      · rw [updateRow_absent st i now _ hi]
        rfl


/-- Reorder validation accepts every list of positive numeric ids paired
with non-negative numeric sort orders. -/
theorem validateReorderData_ok : ∀ (l : List (Int × Int)),
    (∀ p ∈ l, 0 < p.1 ∧ 0 ≤ p.2) →
    (TaskValidators.validateReorderData
      (l.map (fun q => (JsVal.vnum q.1, JsVal.vnum q.2)))).isValid = true
  | [], _ => rfl
  | (i, o) :: rest, h => by
      obtain ⟨hi, ho⟩ := h (i, o) (List.mem_cons_self _ _)
      have hi' : 0 < i := hi
      have ho' : 0 ≤ o := ho
      have hid : TaskValidators.validateTaskId (JsVal.vnum i) = ⟨true, none⟩ := by
        simp only [TaskValidators.validateTaskId, Validation.chainHandle,
          Validation.requiredValidate, Validation.numericValidate]
        simp only [if_true]
        rw [if_neg (not_le.mpr hi')]
        simp
      simp only [List.map_cons, TaskValidators.validateReorderData, hid]
      rw [if_neg (by simp), if_neg (not_lt.mpr ho')]
      exact validateReorderData_ok rest (fun p hp => h p (List.mem_cons_of_mem _ hp))

/-- Converting all-numeric update entries back to integers succeeds. -/
theorem mapM_vnum_ids : ∀ (l : List (Int × Int)),
    (l.map (fun q => (JsVal.vnum q.1, q.2))).mapM
      (fun u => match u.1 with | JsVal.vnum i => some (i, u.2) | _ => none) = some l
  | [] => rfl
  | (i, o) :: rest => by
      simp only [List.map_cons, List.mapM_cons, mapM_vnum_ids rest]
      rfl

/-- The reorder route's update list, as integer pairs tagged `vnum`. -/
theorem reorder_updates_eq (ids : List Int) :
    ((ids.map JsVal.vnum).enum.map (fun p => (p.2, (p.1 : Int)))) =
      (ids.enum.map (fun p => (p.2, (p.1 : Int)))).map
        (fun q => (JsVal.vnum q.1, q.2)) := by
  rw [List.enum_map, List.map_map, List.map_map]
  exact List.map_congr_left (fun p _ => rfl)

/-- The ids named by the route's update list are the submitted ids. -/
theorem reorder_updates_fst (ids : List Int) :
    ((ids.enum.map (fun p => (p.2, (p.1 : Int)))).map Prod.fst) = ids := by
  rw [List.map_map]
  exact List.enum_map_snd ids

/-- Looking an id up in the enumerated update list yields its 0-based
index in the submitted sequence. -/
theorem lookupOrd_enumFrom : ∀ (ids : List Int) (n : ℕ) (a : Int), a ∈ ids →
    lookupOrd a ((ids.enumFrom n).map (fun p => (p.2, (p.1 : Int)))) =
      some (((n + ids.indexOf a : ℕ) : Int))
  | [], _, a, ha => absurd ha (List.not_mem_nil a)
  | i :: rest, n, a, ha => by
      rw [List.enumFrom_cons]
      simp only [List.map_cons, lookupOrd]
      by_cases hia : i = a
      · rw [if_pos hia, List.indexOf_cons_eq rest hia]
        simp
      · rw [if_neg hia, List.indexOf_cons_ne rest hia]
        have har : a ∈ rest := by
          rcases List.mem_cons.mp ha with heq | h
          · exact absurd heq.symm hia
          · exact h
        rw [lookupOrd_enumFrom rest (n + 1) a har]
        congr 1
        omega

/-- Every entry of the enumerated update list pairs a submitted id with a
non-negative index. -/
theorem reorder_updates_mem (ids : List Int) (p : Int × Int)
    (hp : p ∈ ids.enum.map (fun q => (q.2, (q.1 : Int)))) :
    p.1 ∈ ids ∧ 0 ≤ p.2 := by
  obtain ⟨q, hq, rfl⟩ := List.mem_map.mp hp
  constructor
  · have h2 : q.2 ∈ List.map Prod.snd ids.enum := List.mem_map.mpr ⟨q, hq, rfl⟩
    rw [List.enum_map_snd] at h2
    exact h2
  · exact Int.ofNat_nonneg q.1

/-- Sorting a store whose rows carry `sortOrder = indexOf id ids` (for a
complete, duplicate-free id list `ids`) lists the rows in exactly the
order of `ids`, with sortOrders `0 .. N-1`. -/
theorem findAll_of_indexed (s : Store) (now : Int) (ids : List Int) (hnd : ids.Nodup)
    (hsnd : (s.map Task.id).Nodup)
    (hmem : ∀ a : Int, a ∈ s.map Task.id ↔ a ∈ ids) :
    (PrismaTaskRepository.findAll (s.map (fun t =>
      ({ t with sortOrder := ((ids.indexOf t.id : ℕ) : Int), updatedAt := now } : Task)))).map
        Task.id = ids ∧
    (PrismaTaskRepository.findAll (s.map (fun t =>
      ({ t with sortOrder := ((ids.indexOf t.id : ℕ) : Int), updatedAt := now } : Task)))).map
        Task.sortOrder = (List.range ids.length).map Int.ofNat := by
  set G : Task → Task := fun t =>
    ({ t with sortOrder := ((ids.indexOf t.id : ℕ) : Int), updatedAt := now } : Task) with hG
  set L := PrismaTaskRepository.findAll (s.map G) with hL
  have hperm : L.Perm (s.map G) := List.perm_insertionSort _ _
  have hsort : List.Sorted (fun a b : Task => a.sortOrder ≤ b.sortOrder) L :=
    List.sorted_insertionSort _ _
  have hids_perm : (s.map Task.id).Perm ids :=
    (List.perm_ext_iff_of_nodup hsnd hnd).mpr hmem
  have hso1 : (s.map G).map Task.sortOrder =
      (s.map Task.id).map (fun a => ((ids.indexOf a : ℕ) : Int)) := by
    rw [List.map_map, List.map_map]
    exact List.map_congr_left (fun t _ => rfl)
  have hkey : ids.map (fun a => ((ids.indexOf a : ℕ) : Int)) =
      (List.range ids.length).map Int.ofNat := by
    refine List.ext_getElem (by simp) ?_
    intro k h1 h2
    simp only [List.getElem_map, List.getElem_range]
    congr 1
    exact List.indexOf_getElem hnd k (by simpa using h1)
  have hso_perm : (L.map Task.sortOrder).Perm ((List.range ids.length).map Int.ofNat) := by
    have p1 : (L.map Task.sortOrder).Perm ((s.map G).map Task.sortOrder) := hperm.map _
    rw [hso1] at p1
    have p2 := hids_perm.map (fun a => ((ids.indexOf a : ℕ) : Int))
    rw [hkey] at p2
    exact p1.trans p2
  have hsorted1 : List.Pairwise (· ≤ ·) (L.map Task.sortOrder) :=
    List.pairwise_map.mpr hsort
  have hsorted2 : List.Pairwise (· ≤ ·) ((List.range ids.length).map Int.ofNat) :=
    List.pairwise_map.mpr
      ((List.pairwise_lt_range _).imp (fun h => Int.ofNat_le.mpr (Nat.le_of_lt h)))
  have hd : L.map Task.sortOrder = (List.range ids.length).map Int.ofNat :=
    List.eq_of_perm_of_sorted hso_perm hsorted1 hsorted2
  have hlen : L.length = ids.length := by
    have h1 := hperm.length_eq
    have h2 := hids_perm.length_eq
    simp only [List.length_map] at h1 h2
    omega
  refine ⟨?_, hd⟩
  refine List.ext_getElem (by simpa using hlen) ?_
  intro k h1 h2
  have hk : k < L.length := by simpa using h1
  have h5 : (L.get ⟨k, hk⟩).sortOrder = Int.ofNat k := by
    have h6 := List.getElem_of_eq hd (by rw [List.length_map]; exact hk)
    rw [List.getElem_map] at h6
    rw [List.getElem_map, List.getElem_range] at h6
    simpa using h6
  have hmemL : L.get ⟨k, hk⟩ ∈ s.map G := hperm.subset (List.get_mem L k hk)
  obtain ⟨t0, ht0, hGt⟩ := List.mem_map.mp hmemL
  have htid : t0.id ∈ ids := (hmem t0.id).mp (List.mem_map.mpr ⟨t0, ht0, rfl⟩)
  have hidx : ids.indexOf t0.id = k := by
    have h7 : ((ids.indexOf t0.id : ℕ) : Int) = Int.ofNat k := by
      rw [← h5, ← hGt]
    rw [Int.ofNat_eq_natCast] at h7
    exact_mod_cast h7
  have hlt : ids.indexOf t0.id < ids.length := List.indexOf_lt_length.mpr htid
  have hgi := List.getElem_indexOf hlt
  rw [List.getElem_map]
  have hLk : L[k] = L.get ⟨k, hk⟩ := rfl
  rw [hLk, ← hGt]
  have hid0 : (G t0).id = t0.id := rfl
  rw [hid0]
  subst hidx
  exact hgi.symm

/-- With positive submitted ids, the reorder route reduces to the
transaction on the enumerated `(id, index)` updates: validation passes,
and the handler answers 200 on transaction success, 500 (with the
generic message) on failure — in the latter case the store is the
caller's, untouched. -/
theorem reorderPUT_reduces (s : Store) (now : Int) (ids : List Int)
    (hpos : ∀ i ∈ ids, 0 < i) :
    Routes.reorderPUT s now (ids.map JsVal.vnum) =
      (match PrismaTaskRepository.updateSortOrders s now
          (ids.enum.map (fun p => (p.2, (p.1 : Int)))) with
        | some s1 => (ApiResponse.ok (), s1)
        | none => (ApiResponse.error "並び順の更新に失敗しました", s)) := by
  have hupdates := reorder_updates_eq ids
  have hval : (TaskValidators.validateReorderData (((ids.map JsVal.vnum).enum.map
      (fun p => (p.2, (p.1 : Int)))).map (fun u => (u.1, JsVal.vnum u.2)))).isValid
      = true := by
    have hvalin : (((ids.map JsVal.vnum).enum.map (fun p => (p.2, (p.1 : Int)))).map
        (fun u => (u.1, JsVal.vnum u.2))) =
        (ids.enum.map (fun p => (p.2, (p.1 : Int)))).map
          (fun q => (JsVal.vnum q.1, JsVal.vnum q.2)) := by
      rw [hupdates, List.map_map]
      exact List.map_congr_left (fun q _ => rfl)
    rw [hvalin]
    exact validateReorderData_ok _ (fun p hp =>
      ⟨hpos p.1 (reorder_updates_mem ids p hp).1, (reorder_updates_mem ids p hp).2⟩)
  have hmapM : (((ids.map JsVal.vnum).enum.map (fun p => (p.2, (p.1 : Int)))).mapM
      (fun u => match u.1 with | JsVal.vnum i => some (i, u.2) | _ => none)) =
      some (ids.enum.map (fun p => (p.2, (p.1 : Int)))) := by
    rw [hupdates]
    exact mapM_vnum_ids _
  simp only [Routes.reorderPUT, ReorderTasksCommand.execute]
  rw [if_neg (by simp only [hval]; simp)]
  rw [hmapM]
  dsimp only
  cases h1 : PrismaTaskRepository.updateSortOrders s now
      (ids.enum.map (fun p => (p.2, (p.1 : Int)))) <;> rfl

/-- C1: submitting the complete set of task ids (no duplicates, every id
existing, covering the store) to the reorder PUT succeeds; each listed
task's `sortOrder` becomes its 0-based index in the submitted sequence,
and `findAll` (ordered by `sortOrder` ascending) returns the tasks in
exactly the submitted order with sortOrders `0 .. N-1`, regardless of
their prior `sortOrder` values. -/
theorem reorder_assigns_indices (s : Store) (now : Int) (ids : List Int)
    (hpos : ∀ i ∈ ids, 0 < i) (hnd : ids.Nodup)
    (hsnd : (s.map Task.id).Nodup)
    (hmem : ∀ a : Int, a ∈ s.map Task.id ↔ a ∈ ids) :
    (Routes.reorderPUT s now (ids.map JsVal.vnum)).1 = .ok () ∧
    (∀ t ∈ (Routes.reorderPUT s now (ids.map JsVal.vnum)).2,
      t.sortOrder = ((ids.indexOf t.id : ℕ) : Int)) ∧
    (PrismaTaskRepository.findAll
      (Routes.reorderPUT s now (ids.map JsVal.vnum)).2).map Task.id = ids ∧
    (PrismaTaskRepository.findAll
      (Routes.reorderPUT s now (ids.map JsVal.vnum)).2).map Task.sortOrder =
      (List.range ids.length).map Int.ofNat := by
  have hred := reorderPUT_reduces s now ids hpos
  have hUnd : ((ids.enum.map (fun p => (p.2, (p.1 : Int)))).map Prod.fst).Nodup := by
    rw [reorder_updates_fst]
    exact hnd
  have hUmem : ∀ p ∈ ids.enum.map (fun p => (p.2, (p.1 : Int))),
      p.1 ∈ s.map Task.id :=
    fun p hp => (hmem p.1).mpr (reorder_updates_mem ids p hp).1
  have heq := updateSortOrders_eq now (ids.enum.map (fun p => (p.2, (p.1 : Int)))) s
    hUnd hUmem
  have hmap : s.map (fun t =>
      match lookupOrd t.id (ids.enum.map (fun p => (p.2, (p.1 : Int)))) with
      | some o => { t with sortOrder := o, updatedAt := now }
      | none => t) =
      s.map (fun t =>
        ({ t with sortOrder := ((ids.indexOf t.id : ℕ) : Int), updatedAt := now } : Task)) := by
    refine List.map_congr_left (fun t ht => ?_)
    have htid : t.id ∈ ids := (hmem t.id).mp (List.mem_map.mpr ⟨t, ht, rfl⟩)
    have hl : lookupOrd t.id (ids.enum.map (fun p => (p.2, (p.1 : Int)))) =
        some ((ids.indexOf t.id : ℕ) : Int) := by
      rw [List.enum_eq_enumFrom, lookupOrd_enumFrom ids 0 t.id htid]
      simp
    rw [hl]
  rw [hmap] at heq
  rw [heq] at hred
  rw [hred]
  dsimp only
  refine ⟨rfl, ?_, ?_, ?_⟩
  · intro t ht
    obtain ⟨t0, _, rfl⟩ := List.mem_map.mp ht
    rfl
  · exact (findAll_of_indexed s now ids hnd hsnd hmem).1
  · exact (findAll_of_indexed s now ids hnd hsnd hmem).2

/-- C1 witness: the store [A, B, C] (ids 1, 2, 3), reordered by
[3, 1, 2]; the listing comes back as C, A, B with sortOrders 0, 1, 2. -/
theorem reorder_assigns_indices_witness :
    (Routes.reorderPUT [sampleA, sampleB, sampleC] 5
      ([3, 1, 2].map JsVal.vnum)).1 = .ok () ∧
    (PrismaTaskRepository.findAll
      (Routes.reorderPUT [sampleA, sampleB, sampleC] 5
        ([3, 1, 2].map JsVal.vnum)).2).map Task.id = [3, 1, 2] := by
  have h := reorder_assigns_indices [sampleA, sampleB, sampleC] 5 [3, 1, 2]
    (by decide) (by decide) (by decide)
    (by intro a; simp [sampleA, sampleB, sampleC]; omega)
  exact ⟨h.1, h.2.2.1⟩

/-- C4 counterexample: reordering [2] against a store holding only task 1
is rejected, but with the command's generic failure message (HTTP 500),
not with "task not found": neither the route nor the validators check id
existence, and the transaction's throw is caught generically. -/
theorem reorder_unknown_id_message_refuted :
    Routes.reorderPUT [sampleA] 5 [JsVal.vnum 2] =
      (.error "並び順の更新に失敗しました", [sampleA]) ∧
    "並び順の更新に失敗しました" ≠ "task not found" ∧
    "並び順の更新に失敗しました" ≠ "Task not found" := by
  refine ⟨by decide, by decide, by decide⟩

/-- C4 (amended): a reorder naming any id absent from the store is
rejected in full — as a generic storage failure (500, message
並び順の更新に失敗しました), not as "task not found" — and no sortOrder
is written: the store after the failed call is exactly the store before
it, so listAll returns the pre-call tasks unchanged. -/
theorem reorder_unknown_id_rejected (s : Store) (now : Int) (ids : List Int)
    (hpos : ∀ i ∈ ids, 0 < i)
    (hunknown : ∃ i ∈ ids, i ∉ s.map Task.id) :
    (Routes.reorderPUT s now (ids.map JsVal.vnum)).1 =
      .error "並び順の更新に失敗しました" ∧
    (Routes.reorderPUT s now (ids.map JsVal.vnum)).2 = s := by
  have hred := reorderPUT_reduces s now ids hpos
  obtain ⟨i, hi, hab⟩ := hunknown
  have hif : i ∈ (ids.enum.map (fun p => (p.2, (p.1 : Int)))).map Prod.fst := by
    rw [reorder_updates_fst]
    exact hi
  obtain ⟨p, hp, hpe⟩ := List.mem_map.mp hif
  have hnone := updateSortOrders_none now (ids.enum.map (fun p => (p.2, (p.1 : Int)))) s
    ⟨p, hp, by rw [hpe]; exact hab⟩
  rw [hnone] at hred
  rw [hred]
  exact ⟨rfl, rfl⟩

/-- C4 witness: the concrete rejected call of the counterexample, through
the general theorem. -/
theorem reorder_unknown_id_rejected_witness :
    (Routes.reorderPUT [sampleA] 5 ([2].map JsVal.vnum)).1 =
      .error "並び順の更新に失敗しました" ∧
    (Routes.reorderPUT [sampleA] 5 ([2].map JsVal.vnum)).2 = [sampleA] :=
  reorder_unknown_id_rejected [sampleA] 5 [2] (by decide) ⟨2, by decide, by decide⟩

end TaskApp
